import Mathlib

/-!
Verification of the token correlation and reply-capture engine
(src/config.py, src/db.py, src/mailer.py, src/poller.py).

The Python modules are shallowly embedded: strings are `String`/`List Char`,
the SQLite tables are lists of rows, the filesystem is the list of existing
paths, and the Outlook COM surface is modelled by explicit inputs (mail items
with subject/body/HTML/attachments, per-call failure flags for the fallible
external calls).
-/

set_option maxHeartbeats 1000000

namespace AutoBid

/-! Token pattern machinery.

config.py defines TOKEN_PREFIX = "ABA#" and poller.py compiles
TOKEN_RE = re.compile(r"\[ABA\#[A-Z0-9]\x7b8\x7d\]", re.I).
The pattern is fixed-width: a bracket, the four literal prefix characters
(case-insensitive), eight characters of the class [A-Z0-9] under re.I
(so ASCII letters of either case and digits), and a closing bracket. -/

/-- Characters of the fixed token prefix "ABA#" from config.py. -/
def tokenPrefixChars : List Char := ['A', 'B', 'A', '#']

/-- Case-insensitive comparison of a pattern literal against a source character,
modelling the re.I flag. -/
def ciEq (p c : Char) : Bool := p.toLower = c.toLower

/-- Characters matched by the class [A-Z0-9] under re.I: ASCII letters of either
case and ASCII digits. -/
def isTokenChar (c : Char) : Bool :=
  ('A' ≤ c && c ≤ 'Z') || ('a' ≤ c && c ≤ 'z') || ('0' ≤ c && c ≤ '9')

/-- Match the literal characters of the pattern case-insensitively at the head of
the input, returning the matched source characters and the remainder. -/
def matchLitCI : List Char → List Char → Option (List Char × List Char)
  | [], rest => some ([], rest)
  | _ :: _, [] => none
  | p :: ps, c :: cs =>
      if ciEq p c then
        match matchLitCI ps cs with
        | some (m, r) => some (c :: m, r)
        | none => none
      else none

/-- Match exactly n characters of the class [A-Z0-9] (under re.I) at the head of
the input, returning them and the remainder. -/
def matchAlnum : Nat → List Char → Option (List Char × List Char)
  | 0, rest => some ([], rest)
  | _ + 1, [] => none
  | n + 1, c :: cs =>
      if isTokenChar c then
        match matchAlnum n cs with
        | some (m, r) => some (c :: m, r)
        | none => none
      else none

/-- Try TOKEN_RE at the head of the input. On success, return the characters of
group(0) without the enclosing brackets, which is exactly the value poll_inbox
extracts as m.group(0)[1:-1]. The source characters are returned as they appear
in the input, so the original casing is preserved. -/
def tokenAt (l : List Char) : Option (List Char) :=
  match l with
  | [] => none
  | c :: rest =>
      if c = '[' then
        match matchLitCI tokenPrefixChars rest with
        | none => none
        | some (mpre, rest2) =>
            match matchAlnum 8 rest2 with
            | none => none
            | some (m8, rest3) =>
                match rest3 with
                | [] => none
                | d :: _ => if d = ']' then some (mpre ++ m8) else none
      else none

/-- re.search with TOKEN_RE: try the pattern at each start position from the
left and return the leftmost match, already stripped of its brackets. -/
def tokenSearch : List Char → Option (List Char)
  | [] => none
  | c :: cs =>
      match tokenAt (c :: cs) with
      | some t => some t
      | none => tokenSearch cs

/-- Token extraction of poll_inbox (src/poller.py lines 328-343): search the
subject, then the plain-text body; only when both fail, fall back to searching
the HTML body. -/
def extractToken (subj body html : List Char) : Option (List Char) :=
  match tokenSearch subj with
  | some t => some t
  | none =>
      match tokenSearch body with
      | some t => some t
      | none => tokenSearch html

/-- Conformance of an extracted value to the token grammar: twelve characters,
the first four equal to the fixed prefix up to case, the last eight in the
alphanumeric class. -/
def tokenGrammar (t : List Char) : Bool :=
  decide (t.length = 12) &&
    (List.zip tokenPrefixChars (t.take 4)).all (fun pc => ciEq pc.1 pc.2) &&
    (t.drop 4).all isTokenChar

/-! Database model (src/db.py).

Each table is the list of its rows in insertion order; the AUTOINCREMENT id is
the list position, so "latest" means last. -/

/-- Row of the mail_log table (DDL_MAIL_LOG), without the surrogate id. -/
structure MailRow where
  email : String
  company : String
  token : String
  subject : String
  entryid : String
  conversation_id : String
  sent_on : String
  status : String
  collection_id : String
  product_desc : String
deriving DecidableEq

/-- Structured stand-in for the serialized payload
json.dumps of subject and body_text stored in reply_log.parse_json.
The claims never inspect the serialized text, so the payload is kept as the
pair of fields it serializes. -/
structure ParsePayload where
  subject : String
  body_text : String
deriving DecidableEq

/-- Row of the reply_log table (DDL_REPLY_LOG), without the surrogate id. -/
structure ReplyRow where
  token : String
  company : String
  from_email : String
  received_on : String
  has_attachments : Nat
  parse_ok : Nat
  parse_json : ParsePayload
  collection_id : String
  product_desc : String
deriving DecidableEq

/-- Row of the attachment_log table (DDL_ATTACHMENT_LOG), without the surrogate id. -/
structure AttachRow where
  token : String
  msg_entryid : String
  received_on : String
  file_name : String
  file_ext : String
  file_size_bytes : Nat
  saved_path : String
  sha256 : String
  created_at : String
deriving DecidableEq

/-- The persistent log store: the three tables of src/db.py. -/
structure DB where
  mail_log : List MailRow
  reply_log : List ReplyRow
  attachment_log : List AttachRow
deriving DecidableEq

/-- The empty database produced by init_db. -/
def DB.init : DB := ⟨[], [], []⟩

/-- Natural key of reply_log rows: the UNIQUE(token, from_email, received_on)
constraint of DDL_REPLY_LOG. -/
def replyKey (r : ReplyRow) : String × String × String :=
  (r.token, r.from_email, r.received_on)

/-- db.py insert_mail_log: INSERT OR REPLACE keyed by the UNIQUE token column.
Any existing row with the same token is removed and the new row is appended. -/
def insertMailLog (ml : List MailRow) (r : MailRow) : List MailRow :=
  (ml.filter (fun x => x.token ≠ r.token)) ++ [r]

/-- db.py insert_reply_log: INSERT OR IGNORE under the UNIQUE natural key; the
insert is a no-op when a row with the same key already exists. -/
def insertReplyLog (rl : List ReplyRow) (r : ReplyRow) : List ReplyRow :=
  if rl.any (fun x => replyKey x = replyKey r) then rl else rl ++ [r]

/-- db.py insert_attachment_log: a plain INSERT, always appending. -/
def insertAttachmentLog (al : List AttachRow) (r : AttachRow) : List AttachRow :=
  al ++ [r]

/-- The write operations the subsystem performs against the log store. -/
inductive Op where
  | insertMail (r : MailRow)
  | insertReply (r : ReplyRow)
  | insertAttach (r : AttachRow)

/-- Apply one write operation to the database. -/
def applyOp (db : DB) : Op → DB
  | .insertMail r => { db with mail_log := insertMailLog db.mail_log r }
  | .insertReply r => { db with reply_log := insertReplyLog db.reply_log r }
  | .insertAttach r => { db with attachment_log := insertAttachmentLog db.attachment_log r }

/-- Run a sequence of write operations from the empty database. -/
def runOps (ops : List Op) : DB := ops.foldl applyOp DB.init

/-- Result shape of db.py get_mail_meta_by_token. -/
structure MailMeta where
  company : String
  collection_id : String
  product_desc : String
deriving DecidableEq

/-- db.py get_mail_meta_by_token: company, collection_id and product_desc of the
latest (highest id) mail_log row with the given token, or empty strings when no
row matches. In the list model the latest matching row is the last one. -/
def getMailMetaByToken (ml : List MailRow) (t : String) : MailMeta :=
  match (ml.filter (fun x => x.token = t)).getLast? with
  | none => ⟨"", "", ""⟩
  | some r => ⟨r.company, r.collection_id, r.product_desc⟩

/-- Number of mail_log rows carrying a given token. -/
def countTok (ml : List MailRow) (t : String) : Nat :=
  (ml.filter (fun x => x.token = t)).length

/-- Number of reply_log rows carrying a given natural key. -/
def countReplyKey (rl : List ReplyRow) (k : String × String × String) : Nat :=
  (rl.filter (fun x => replyKey x = k)).length

/-! Filename sanitization and collision-avoidance naming (src/poller.py). -/

/-- Characters of the class the sanitizer replaces:
backslash, slash, colon, star, question mark, double quote, angle brackets, pipe. -/
def illegalChar (c : Char) : Bool :=
  c = '\\' || c = '/' || c = ':' || c = '*' || c = '?' || c = '"' || c = '<' || c = '>' || c = '|'

/-- Fuel-driven worker for collapseIllegal; the fuel is an upper bound on the
input length, so the fallback branch is never reached in actual use. -/
def collapseIllegalGo : Nat → List Char → List Char
  | 0, l => l
  | _ + 1, [] => []
  | fuel + 1, c :: cs =>
      if illegalChar c then '_' :: collapseIllegalGo fuel (cs.dropWhile illegalChar)
      else c :: collapseIllegalGo fuel cs

/-- The substitution step of _sanitize_filename: each maximal run of illegal
characters is replaced by a single underscore (the character class carries a
one-or-more quantifier). -/
def collapseIllegal (l : List Char) : List Char := collapseIllegalGo l.length l

/-- ASCII whitespace stripped by the Python str.strip() method. -/
def isPySpace (c : Char) : Bool :=
  c = ' ' || c = '\t' || c = '\n' || c = '\r' || c = '\x0b' || c = '\x0c'

/-- Python str.strip(): drop whitespace from both ends. -/
def pyStrip (l : List Char) : List Char :=
  ((l.dropWhile isPySpace).reverse.dropWhile isPySpace).reverse

/-- poller.py _sanitize_filename: replace runs of illegal characters by an
underscore, strip surrounding whitespace, and fall back to "attachment" when
the result is empty. -/
def sanitizeFilename (s : String) : String :=
  let t := pyStrip (collapseIllegal s.data)
  if t = [] then "attachment" else ⟨t⟩

/-- Digit character for a value below ten. -/
def decDigit : Nat → Char
  | 0 => '0' | 1 => '1' | 2 => '2' | 3 => '3' | 4 => '4'
  | 5 => '5' | 6 => '6' | 7 => '7' | 8 => '8' | _ => '9'

/-- Decimal digits of a number, least significant first; the first argument is
fuel and any fuel of at least the value of the number is enough. -/
def natDigitsRevGo : Nat → Nat → List Char
  | _, 0 => []
  | 0, _ + 1 => []
  | fuel + 1, n + 1 => decDigit ((n + 1) % 10) :: natDigitsRevGo fuel ((n + 1) / 10)

/-- Decimal rendering of a natural number as produced by Python string
formatting of the disambiguator index (only ever used for positive indices). -/
def natStr (n : Nat) : List Char := (natDigitsRevGo n n).reverse

/-- Numeric value of a digit character. -/
def decDigitVal (c : Char) : Nat := c.toNat - 48

/-- Decoder for natDigitsRevGo output, used to prove the rendering injective. -/
def decValRev : List Char → Nat
  | [] => 0
  | c :: cs => decDigitVal c + 10 * decValRev cs

/-- Test for a character other than the dot, used to locate the last dot. -/
def notDot (c : Char) : Bool := c ≠ '.'

/-- Test for the dot character. -/
def isDot (c : Char) : Bool := c = '.'

/-- os.path.splitext restricted to plain file names (no directory separators):
split at the last dot, unless every character before that dot is itself a dot,
in which case there is no extension. -/
def splitExt (name : List Char) : List Char × List Char :=
  let rev := name.reverse
  match rev.dropWhile notDot with
  | [] => (name, [])
  | _ :: revStem =>
      if revStem.all isDot then (name, [])
      else (revStem.reverse, '.' :: (rev.takeWhile notDot).reverse)

/-- os.path.join in the model: parent, separator, child. -/
def pathJoin (d child : String) : String := d ++ "/" ++ child

/-- Candidate number k probed by the _unique_path loop: candidate 0 is the
unmodified target name and candidate k appends the numeric disambiguator (k)
between the stem and the extension. -/
def uniqueCand (destDir stem ext : String) : Nat → String
  | 0 => pathJoin destDir (stem ++ ext)
  | k + 1 => pathJoin destDir (stem ++ "(" ++ (⟨natStr (k + 1)⟩ : String) ++ ")" ++ ext)

/-- Probe loop of _unique_path: while the candidate exists, move to the next
index. fs is the list of paths existing on disk; the fuel is an upper bound on
the number of probes and one more than the size of fs always suffices. -/
def uniquePathGo (fs : List String) (destDir stem ext : String) : Nat → Nat → String
  | 0, k => uniqueCand destDir stem ext k
  | fuel + 1, k =>
      if uniqueCand destDir stem ext k ∈ fs then
        uniquePathGo fs destDir stem ext fuel (k + 1)
      else uniqueCand destDir stem ext k

/-- poller.py _unique_path: return the target path itself when free, otherwise
the first path with disambiguator (1), (2), ... that does not exist. -/
def uniquePath (fs : List String) (destDir baseName : String) : String :=
  let se := splitExt baseName.data
  uniquePathGo fs destDir (⟨se.1⟩ : String) (⟨se.2⟩ : String) (fs.length + 1) 0

/-! Attachment capture pipeline (src/poller.py _save_attachments). -/

/-- config.py constants used by the scanner. -/
def ATTACH_BASE_DIR : String := "attachments"

def MAX_ATTACH_SIZE_MB : Nat := 50

def POLL_MAX_SCAN : Nat := 400

def MAX_BODY_TEXT_CHARS : Nat := 100000

/-- One attachment of a mail item, as exposed by the external attachment-access
contract. sha is the value the streaming SHA256 helper returns for the saved
file (the empty string models a hashing failure); accessFails models the
Item(i) call raising, saveFails models SaveAsFile raising. -/
structure Attachment where
  fileName : String
  size : Nat
  sha : String
  accessFails : Bool
  saveFails : Bool
deriving DecidableEq

/-- Per-call context of the _save_attachments loop. -/
structure SaveCtx where
  maxAttachSizeMB : Nat
  token : String
  msg_entryid : String
  received_on : String
  now : String
  nameCore : String
  destDir : String
deriving DecidableEq

/-- Size-ceiling test: a configured maximum of 0 disables the check (the Python
condition short-circuits on a falsy limit). -/
def oversized (maxMB : Nat) (a : Attachment) : Bool :=
  decide (maxMB ≠ 0 ∧ a.size > maxMB * 1024 * 1024)

/-- Sanitized original file name of attachment number idx (1-based), with the
fallback name used when the attachment exposes no file name. -/
def origFname (idx : Nat) (att : Attachment) : String :=
  sanitizeFilename (if att.fileName = "" then "attachment_" ++ (⟨natStr idx⟩ : String) else att.fileName)

/-- Lower-cased extension of the sanitized original file name. -/
def attExt (idx : Nat) (att : Attachment) : String :=
  ⟨((splitExt (origFname idx att).data).2).map Char.toLower⟩

/-- Target file name written for an attachment: the company-and-token name core
followed by the original extension. -/
def targetFname (ctx : SaveCtx) (idx : Nat) (att : Attachment) : String :=
  ctx.nameCore ++ attExt idx att

/-- attachment_log row written for one attachment. -/
def attRecord (ctx : SaveCtx) (idx : Nat) (att : Attachment) (path sha : String) : AttachRow :=
  { token := ctx.token, msg_entryid := ctx.msg_entryid, received_on := ctx.received_on,
    file_name := targetFname ctx idx att, file_ext := attExt idx att,
    file_size_bytes := att.size, saved_path := path, sha256 := sha, created_at := ctx.now }

/-- Body of the per-attachment loop of _save_attachments: an unreadable
attachment is skipped without a record; an oversized attachment and a failed
save are logged with empty path and hash and write nothing to disk; a
successful save writes the file under a collision-free path and logs the path
and hash. The last component is the increment to the saved counter. -/
def saveOne (ctx : SaveCtx) (idx : Nat) (att : Attachment) (db : DB) (fs : List String) :
    DB × List String × Nat :=
  if att.accessFails then (db, fs, 0)
  else if oversized ctx.maxAttachSizeMB att then
    (applyOp db (.insertAttach (attRecord ctx idx att "" "")), fs, 0)
  else
    let savePath := uniquePath fs ctx.destDir (targetFname ctx idx att)
    if att.saveFails then
      (applyOp db (.insertAttach (attRecord ctx idx att "" "")), fs, 0)
    else
      (applyOp db (.insertAttach (attRecord ctx idx att savePath att.sha)), fs ++ [savePath], 1)

/-- Loop of _save_attachments over the attachment list, with 1-based indices. -/
def saveAttachmentsGo (ctx : SaveCtx) : Nat → List Attachment → DB → List String → Nat →
    DB × List String × Nat
  | _, [], db, fs, n => (db, fs, n)
  | idx, a :: rest, db, fs, n =>
      let r := saveOne ctx idx a db fs
      saveAttachmentsGo ctx (idx + 1) rest r.1 r.2.1 (n + r.2.2)

/-- Destination directory of the capture pipeline: the base directory joined
with the sanitized topic, where an empty topic is first replaced by
"uncategorized" before sanitization. -/
def destDirFor (collection_id : String) : String :=
  pathJoin ATTACH_BASE_DIR (sanitizeFilename (if collection_id = "" then "uncategorized" else collection_id))

/-- Context of one _save_attachments call: the sanitized name parts, the
destination directory derived from the topic, and the bookkeeping fields. -/
def mkSaveCtx (maxMB : Nat) (company token collection_id msg_entryid received_on now : String) :
    SaveCtx :=
  let safeCompany := sanitizeFilename company
  let safeToken := sanitizeFilename token
  { maxAttachSizeMB := maxMB, token := token, msg_entryid := msg_entryid,
    received_on := received_on, now := now,
    nameCore := if safeCompany ≠ "" then safeCompany ++ "_" ++ safeToken else safeToken,
    destDir := destDirFor collection_id }

/-- poller.py _save_attachments: log every attachment and save those within the
size ceiling whose save call succeeds; returns the updated database, the
updated disk state and the count of attachments actually written to disk. -/
def saveAttachments (maxMB : Nat) (company token collection_id : String)
    (atts : List Attachment) (msg_entryid received_on now : String)
    (db : DB) (fs : List String) : DB × List String × Nat :=
  if atts = [] then (db, fs, 0)
  else
    saveAttachmentsGo (mkSaveCtx maxMB company token collection_id msg_entryid received_on now)
      1 atts db fs 0

/-! Reply body normalization (src/poller.py lines 367-380). -/

/-- Strip markup: each bracketed tag with a nonempty body is replaced by a
single space, matching the substitution with the tag pattern. -/
def stripTags : Nat → List Char → List Char
  | 0, l => l
  | _ + 1, [] => []
  | fuel + 1, c :: cs =>
      if c = '<' ∧ cs.takeWhile (fun d => d ≠ '>') ≠ [] ∧ '>' ∈ cs then
        ' ' :: stripTags fuel ((cs.dropWhile (fun d => d ≠ '>')).drop 1)
      else c :: stripTags fuel cs

/-- Whitespace-before-newline collapse: each maximal whitespace run containing
a newline past its first character is replaced up to its last newline by a
single newline, matching the first whitespace substitution. -/
def collapseWsBeforeNl : Nat → List Char → List Char
  | 0, l => l
  | _ + 1, [] => []
  | fuel + 1, c :: cs =>
      let run := (c :: cs).takeWhile isPySpace
      match run.reverse.findIdx? (fun d => d = '\n') with
      | some r =>
          let i := run.length - 1 - r
          if 1 ≤ i then '\n' :: collapseWsBeforeNl fuel ((c :: cs).drop (i + 1))
          else c :: collapseWsBeforeNl fuel cs
      | none => c :: collapseWsBeforeNl fuel cs

/-- Space or tab, the class of the second whitespace substitution. -/
def isSpaceTab (c : Char) : Bool := c = ' ' || c = '\t'

/-- Space-run collapse: each run of two or more spaces and tabs becomes a
single space. -/
def collapseSpaceRuns : Nat → List Char → List Char
  | 0, l => l
  | _ + 1, [] => []
  | fuel + 1, c :: cs =>
      if isSpaceTab c ∧ cs.takeWhile isSpaceTab ≠ [] then
        ' ' :: collapseSpaceRuns fuel (cs.dropWhile isSpaceTab)
      else c :: collapseSpaceRuns fuel cs

/-- Stored body text of poll_inbox: the plain body when present, otherwise the
HTML body with markup stripped and whitespace collapsed; the result is
truncated to the configured character budget. -/
def bodyTextOf (plain html : List Char) : List Char :=
  let bt :=
    if plain = [] then
      if html = [] then []
      else collapseSpaceRuns html.length (collapseWsBeforeNl html.length (stripTags html.length html))
    else plain
  if MAX_BODY_TEXT_CHARS ≠ 0 ∧ bt.length > MAX_BODY_TEXT_CHARS then bt.take MAX_BODY_TEXT_CHARS
  else bt

/-! Inbox scanner (src/poller.py poll_inbox). -/

/-- One mail item as exposed by the mailbox-enumeration contract: subject,
plain body, HTML body, resolved sender address, received time, entry id and
the attachment list. -/
structure MailItem where
  subject : String
  body : String
  html : String
  senderEmail : String
  receivedOn : String
  entryid : String
  attachments : List Attachment
deriving DecidableEq

/-- Per-item body of the poll_inbox scan loop (src/poller.py lines 314-408):
extract a token; when none is found the item is skipped and nothing changes;
otherwise look up the send metadata, append a reply record, and capture the
attachments when present. The boolean reports whether the item matched. -/
def processItem (now : String) (db : DB) (fs : List String) (it : MailItem) :
    DB × List String × Bool :=
  match extractToken it.subject.data it.body.data it.html.data with
  | none => (db, fs, false)
  | some tokChars =>
      let token : String := ⟨tokChars⟩
      let meta := getMailMetaByToken db.mail_log token
      let hasAtts : Nat := if it.attachments = [] then 0 else 1
      let db1 := applyOp db (.insertReply {
        token := token, company := meta.company, from_email := it.senderEmail,
        received_on := it.receivedOn, has_attachments := hasAtts, parse_ok := 0,
        parse_json := ⟨it.subject, ⟨bodyTextOf it.body.data it.html.data⟩⟩,
        collection_id := meta.collection_id, product_desc := meta.product_desc })
      if it.attachments = [] then (db1, fs, true)
      else
        let r := saveAttachments MAX_ATTACH_SIZE_MB meta.company token meta.collection_id
          it.attachments it.entryid it.receivedOn now db1 fs
        (r.1, r.2.1, true)

/-- The two counters poll_inbox returns. -/
structure PollCounters where
  scanned : Nat
  matched : Nat
deriving DecidableEq

/-- Per-folder loop of poll_inbox: at most POLL_MAX_SCAN of the newest items
are examined; as in the source, the scanned counter is bumped together with
the hit counter inside the matched branch. -/
def pollFolder (now : String) (st : DB × List String × PollCounters) (items : List MailItem) :
    DB × List String × PollCounters :=
  (items.take POLL_MAX_SCAN).foldl
    (fun acc it =>
      let r := processItem now acc.1 acc.2.1 it
      if r.2.2 then (r.1, r.2.1, ⟨acc.2.2.scanned + 1, acc.2.2.matched + 1⟩)
      else (r.1, r.2.1, acc.2.2))
    st

/-- poller.py poll_inbox over the resolved candidate folders, each given as its
item list sorted newest-first by the enumeration contract. -/
def pollInbox (now : String) (folders : List (List MailItem)) (db : DB) (fs : List String) :
    DB × List String × PollCounters :=
  folders.foldl (pollFolder now) (db, fs, ⟨0, 0⟩)

/-- Number of items poll_inbox examines: every enumerated item of every folder
up to the per-folder maximum. -/
def examinedCount (folders : List (List MailItem)) : Nat :=
  (folders.map (fun items => min POLL_MAX_SCAN items.length)).sum

/-! Outbound sender (src/mailer.py). -/

/-- config.py SUBJECT_BASE. -/
def SUBJECT_BASE : String := "Invitation to Partner with Amazon Private Brands"

/-- Lower-case hexadecimal digits, the alphabet of the uuid4().hex source. -/
def isLowerHex (c : Char) : Bool := c ∈ "0123456789abcdef".data

/-- Uppercase alphanumeric characters, the alphabet of issued token suffixes. -/
def isUpperAlnum (c : Char) : Bool :=
  ('A' ≤ c && c ≤ 'Z') || ('0' ≤ c && c ≤ '9')

/-- mailer.py send_one line 86: the issued token is the fixed prefix followed
by the first eight characters of the random hex string, upper-cased. -/
def makeToken (uuidHex : List Char) : List Char :=
  tokenPrefixChars ++ (uuidHex.take 8).map Char.toUpper

/-- mailer.py send_one line 87: the outbound subject embeds the token in
brackets before the base subject. -/
def makeSubject (token : List Char) : String :=
  "[" ++ (⟨token⟩ : String) ++ "] " ++ SUBJECT_BASE

/-- Grammar of issued tokens: the fixed prefix followed by exactly eight
uppercase alphanumeric characters. -/
def issuedTokenGrammar (t : List Char) : Bool :=
  decide (t.length = 12) && decide (t.take 4 = tokenPrefixChars) && (t.drop 4).all isUpperAlnum

/-- External inputs of one send: the random hex string drawn for the token and
the best-effort values resolved from the sent-items view (empty on failure). -/
structure SendEnv where
  uuidHex : List Char
  entryid : String
  conversation_id : String
  sent_on : String
deriving DecidableEq

/-- mailer.py send_one on its success path: issue the token, compose the
subject, dispatch the message and upsert the mail_log record with status SENT.
Returns the token, the subject of the dispatched message and the new database. -/
def sendOne (env : SendEnv) (to_email company collection_id product_desc : String)
    (db : DB) : List Char × String × DB :=
  let token := makeToken env.uuidHex
  let subject := makeSubject token
  let row : MailRow := {
    email := to_email, company := company, token := ⟨token⟩, subject := subject,
    entryid := env.entryid, conversation_id := env.conversation_id,
    sent_on := env.sent_on, status := "SENT",
    collection_id := collection_id, product_desc := product_desc }
  (token, subject, applyOp db (.insertMail row))

/-- One row of the bulk-send contact sheet together with the external behaviour
of its send: the drawn randomness and whether the render/send step raises. -/
structure ContactRow where
  email : String
  company : String
  collection_id : String
  product_desc : String
  env : SendEnv
  sendRaises : Bool
deriving DecidableEq

/-- mailer.py _safe_str on string cells: trim whitespace. -/
def safeStr (s : String) : String := ⟨pyStrip s.data⟩

/-- One entry of the result list bulk_send builds per successful send. -/
structure SendResult where
  email : String
  company : String
  collection_id : String
  product_desc : String
  token : String
  subject : String
deriving DecidableEq

/-- Outcome of a bulk_send call: either the loop ran to completion and returned
the result list, or some send raised and the exception propagated, losing the
result list; either way the database writes made so far persist. -/
inductive BulkOutcome where
  | ok (results : List SendResult) (db : DB)
  | raised (db : DB)
deriving DecidableEq

/-- Whether a bulk_send call returned normally. -/
def BulkOutcome.isOk : BulkOutcome → Bool
  | .ok _ _ => true
  | .raised _ => false

/-- Database state after a bulk_send call. -/
def BulkOutcome.dbOf : BulkOutcome → DB
  | .ok _ db => db
  | .raised db => db

/-- Loop of mailer.py bulk_send: rows are processed in sheet order, rows with a
blank email are skipped, and a raising send aborts the loop with the exception
propagating to the caller. -/
def bulkSendGo : List ContactRow → DB → List SendResult → BulkOutcome
  | [], db, acc => .ok acc.reverse db
  | row :: rest, db, acc =>
      if safeStr row.email = "" then bulkSendGo rest db acc
      else
        let email := safeStr row.email
        let company := if safeStr row.company = "" then "Valued Supplier" else safeStr row.company
        let cid := safeStr row.collection_id
        let pd := safeStr row.product_desc
        if row.sendRaises then .raised db
        else
          let r := sendOne row.env email company cid pd db
          bulkSendGo rest r.2.2
            ({ email := email, company := company, collection_id := cid, product_desc := pd,
               token := ⟨r.1⟩, subject := r.2.1 } :: acc)

/-- mailer.py bulk_send over a contact sheet. -/
def bulkSend (rows : List ContactRow) (db : DB) : BulkOutcome := bulkSendGo rows db []

/-! Concrete demonstration inputs used by the witness and counterexample
theorems below. -/

/-- A concrete mail_log row. -/
def demoMailRow : MailRow :=
  { email := "a@x.com", company := "Acme", token := "ABA#12AB34CD",
    subject := "[ABA#12AB34CD] Invitation to Partner with Amazon Private Brands",
    entryid := "", conversation_id := "", sent_on := "t0", status := "SENT",
    collection_id := "T1", product_desc := "" }

/-- A concrete reply_log row. -/
def demoReplyRow : ReplyRow :=
  { token := "ABA#12AB34CD", company := "Acme", from_email := "s@x.com",
    received_on := "2025-01-01 10:00:00", has_attachments := 0, parse_ok := 0,
    parse_json := ⟨"[ABA#12AB34CD] Re: Invitation", ""⟩,
    collection_id := "T1", product_desc := "" }

/-- A reply item with no token anywhere. -/
def demoItemNoToken : MailItem :=
  { subject := "hello", body := "", html := "", senderEmail := "s@x.com",
    receivedOn := "2025-01-01 10:00:00", entryid := "e1", attachments := [] }

/-- A reply item with a token in its subject. -/
def demoItemWithToken : MailItem :=
  { subject := "[ABA#12AB34CD] Re: Invitation", body := "", html := "", senderEmail := "s@x.com",
    receivedOn := "2025-01-01 10:00:00", entryid := "e2", attachments := [] }

/-- A send environment with the given random hex draw. -/
def demoEnvOf (s : String) : SendEnv :=
  { uuidHex := s.data, entryid := "", conversation_id := "", sent_on := "t1" }

/-- A contact-sheet row with the given address, hex draw and send outcome. -/
def demoRowMk (e u : String) (raises : Bool) : ContactRow :=
  { email := e, company := "Acme", collection_id := "T1", product_desc := "",
    env := demoEnvOf u, sendRaises := raises }

/-- Five recipients of which the third raises at its send step. -/
def demoRows5 : List ContactRow :=
  [demoRowMk "a1@x.com" "aaaaaaaaaaaaaaaaaaaaaaaaaaaaaaaa" false,
   demoRowMk "a2@x.com" "bbbbbbbbbbbbbbbbbbbbbbbbbbbbbbbb" false,
   demoRowMk "a3@x.com" "cccccccccccccccccccccccccccccccc" true,
   demoRowMk "a4@x.com" "dddddddddddddddddddddddddddddddd" false,
   demoRowMk "a5@x.com" "eeeeeeeeeeeeeeeeeeeeeeeeeeeeeeee" false]

/-- An attachment that saves successfully. -/
def demoAttGood : Attachment :=
  { fileName := "quote.pdf", size := 1000, sha := "deadbeef", accessFails := false,
    saveFails := false }

/-- An attachment above a one-megabyte ceiling. -/
def demoAttBig : Attachment :=
  { fileName := "big.xlsx", size := 2 * 1024 * 1024, sha := "cafe", accessFails := false,
    saveFails := false }

/-! Proof support for the log-store claims. -/

theorem insertReplyLog_any_iff (rl : List ReplyRow) (r : ReplyRow) :
    rl.any (fun x => replyKey x = replyKey r) = true ↔
      0 < countReplyKey rl (replyKey r) := by
  simp only [countReplyKey, List.any_eq_true, decide_eq_true_eq, List.length_pos,
    ne_eq, ← List.filter_eq_nil_iff]
  push_neg
  simp [decide_eq_true_eq]

theorem countTok_insertMailLog_self (ml : List MailRow) (r : MailRow) :
    countTok (insertMailLog ml r) r.token = 1 := by
  unfold countTok insertMailLog
  rw [List.filter_append, List.filter_filter]
  simp

theorem countTok_insertMailLog_le (ml : List MailRow) (r : MailRow) (t : String)
    (ht : t ≠ r.token) : countTok (insertMailLog ml r) t ≤ countTok ml t := by
  unfold countTok insertMailLog
  rw [List.filter_append]
  have ht' : r.token ≠ t := fun h => ht h.symm
  have h1 : [r].filter (fun x => decide (x.token = t)) = [] := by simp [ht']
  rw [h1, List.append_nil]
  exact ((List.filter_sublist ml).filter _).length_le

theorem countTok_applyOp_le (db : DB) (op : Op) (t : String)
    (h : countTok db.mail_log t ≤ 1) : countTok (applyOp db op).mail_log t ≤ 1 := by
  cases op with
  | insertMail r =>
      by_cases ht : t = r.token
      · subst ht; simp [applyOp, countTok_insertMailLog_self]
      · exact le_trans (countTok_insertMailLog_le db.mail_log r t ht) h
  | insertReply r => simpa [applyOp] using h
  | insertAttach r => simpa [applyOp] using h

theorem foldl_applyOp_countTok_le (ops : List Op) (db : DB)
    (h : ∀ t, countTok db.mail_log t ≤ 1) (t : String) :
    countTok (ops.foldl applyOp db).mail_log t ≤ 1 := by
  induction ops generalizing db with
  | nil => exact h t
  | cons op rest ih =>
      exact ih (applyOp db op) (fun u => countTok_applyOp_le db op u (h u))

/-- C4: writing a reply record is idempotent on the natural key
(token, from_email, received_on): on any reply-log state respecting the UNIQUE
constraint, inserting the same triple twice leaves exactly one row with that
key, and the second insert is a no-op that changes nothing. -/
theorem insert_reply_log_idempotent (rl : List ReplyRow) (r : ReplyRow)
    (huniq : ∀ k, countReplyKey rl k ≤ 1) :
    insertReplyLog (insertReplyLog rl r) r = insertReplyLog rl r ∧
    countReplyKey (insertReplyLog rl r) (replyKey r) = 1 := by
  by_cases h : rl.any (fun x => replyKey x = replyKey r) = true
  · have h1 : insertReplyLog rl r = rl := by simp only [insertReplyLog, if_pos h]
    rw [h1]
    refine ⟨h1, ?_⟩
    have h2 := (insertReplyLog_any_iff rl r).mp h
    have h3 := huniq (replyKey r)
    omega
  · have h1 : insertReplyLog rl r = rl ++ [r] := by simp only [insertReplyLog, if_neg h]
    have h3 : rl.filter (fun x => decide (replyKey x = replyKey r)) = [] := by
      rw [List.filter_eq_nil_iff]
      intro x hx
      simp only [decide_eq_true_eq]
      intro hk
      exact h (List.any_eq_true.mpr ⟨x, hx, by simp [hk]⟩)
    constructor
    · rw [h1]
      have h2 : (rl ++ [r]).any (fun x => replyKey x = replyKey r) = true := by
        simp [List.any_append]
      simp only [insertReplyLog, if_pos h2]
    · rw [h1]
      unfold countReplyKey
      rw [List.filter_append, h3]
      simp

/-- Witness for C4 at a concrete state and row. -/
theorem insert_reply_log_idempotent_witness :
    insertReplyLog (insertReplyLog [] demoReplyRow) demoReplyRow =
      insertReplyLog [] demoReplyRow ∧
    countReplyKey (insertReplyLog [] demoReplyRow) (replyKey demoReplyRow) = 1 :=
  insert_reply_log_idempotent [] demoReplyRow (fun k => by simp [countReplyKey])

/-- C5: the send log keeps at most one row per token across every sequence of
write operations of the subsystem; insert_mail_log has upsert semantics keyed
by token, so after inserting a row its token occurs exactly once and the only
row carrying that token is the new row. -/
theorem mail_log_token_unique :
    (∀ ops t, countTok (runOps ops).mail_log t ≤ 1) ∧
    (∀ ml r, countTok (insertMailLog ml r) r.token = 1) ∧
    (∀ ml r x, x ∈ insertMailLog ml r → x.token = r.token → x = r) := by
  refine ⟨?_, countTok_insertMailLog_self, ?_⟩
  · intro ops t
    exact foldl_applyOp_countTok_le ops DB.init (fun u => by simp [DB.init, countTok]) t
  · intro ml r x hx hxt
    unfold insertMailLog at hx
    rcases List.mem_append.mp hx with h | h
    · have := List.of_mem_filter h
      simp [hxt] at this
    · simpa using h

/-- Witness for C5 at a concrete operation sequence and row. -/
theorem mail_log_token_unique_witness :
    countTok (runOps [Op.insertMail demoMailRow, Op.insertMail demoMailRow]).mail_log
      demoMailRow.token ≤ 1 ∧
    countTok (insertMailLog [demoMailRow] demoMailRow) demoMailRow.token = 1 ∧
    demoMailRow = demoMailRow :=
  ⟨mail_log_token_unique.1 _ _, mail_log_token_unique.2.1 _ _,
   mail_log_token_unique.2.2 [demoMailRow] demoMailRow demoMailRow (by decide) (by decide)⟩

/-! Proof support for the token issuer. -/

theorem toUpper_lowerHex {c : Char} (h : isLowerHex c = true) :
    isUpperAlnum c.toUpper = true := by
  have h' : c ∈ "0123456789abcdef".data := by simpa [isLowerHex] using h
  fin_cases h' <;> decide

/-- C6: every issued token is the fixed prefix followed by exactly eight
uppercase alphanumeric characters, the outbound subject is composed exactly as
the bracketed token followed by the base subject, and the persisted mail_log
row carries that token and subject with status SENT. -/
theorem send_one_token_subject (env : SendEnv) (em co ci pd : String) (db : DB)
    (hlen : env.uuidHex.length = 32)
    (hhex : ∀ c ∈ env.uuidHex, isLowerHex c = true) :
    issuedTokenGrammar (sendOne env em co ci pd db).1 = true ∧
    (sendOne env em co ci pd db).2.1 =
      "[" ++ (⟨(sendOne env em co ci pd db).1⟩ : String) ++ "] " ++ SUBJECT_BASE ∧
    ∃ row, (sendOne env em co ci pd db).2.2.mail_log.getLast? = some row ∧
      row.token = (⟨(sendOne env em co ci pd db).1⟩ : String) ∧
      row.subject = (sendOne env em co ci pd db).2.1 ∧ row.status = "SENT" := by
  have hm : ((env.uuidHex.take 8).map Char.toUpper).length = 8 := by
    simp [List.length_take, hlen]
  have hproj : (sendOne env em co ci pd db).1 = makeToken env.uuidHex := rfl
  refine ⟨?_, rfl, ?_⟩
  · rw [hproj]
    unfold issuedTokenGrammar makeToken
    have h4 : tokenPrefixChars.length = 4 := rfl
    refine (Bool.and_eq_true _ _).mpr ⟨(Bool.and_eq_true _ _).mpr ⟨?_, ?_⟩, ?_⟩
    · simp only [List.length_append, List.length_map, List.length_take, hlen]
      decide
    · simp only [decide_eq_true_eq]
      have := List.take_left tokenPrefixChars ((env.uuidHex.take 8).map Char.toUpper)
      rwa [h4] at this
    · have hd := List.drop_left tokenPrefixChars ((env.uuidHex.take 8).map Char.toUpper)
      rw [h4] at hd
      rw [hd, List.all_eq_true]
      intro x hx
      rcases List.mem_map.mp hx with ⟨c, hc, rfl⟩
      exact toUpper_lowerHex (hhex c ((List.take_sublist 8 env.uuidHex).mem hc))
  · exact ⟨_, List.getLast?_concat _, rfl, rfl, rfl⟩

/-- Witness for C6 at a concrete hex draw. -/
theorem send_one_token_subject_witness :
    issuedTokenGrammar
      (sendOne (demoEnvOf "0123456789abcdef0123456789abcdef") "a@x.com" "Acme" "T1" ""
        DB.init).1 = true :=
  (send_one_token_subject (demoEnvOf "0123456789abcdef0123456789abcdef") "a@x.com" "Acme" "T1" ""
    DB.init (by decide) (by decide)).1

/-! Proof support for token extraction. -/

theorem matchLitCI_spec {p l m r : List Char} (h : matchLitCI p l = some (m, r)) :
    m.length = p.length ∧ (List.zip p m).all (fun pc => ciEq pc.1 pc.2) = true := by
  induction p generalizing l m with
  | nil =>
      simp only [matchLitCI, Option.some.injEq, Prod.mk.injEq] at h
      obtain ⟨rfl, rfl⟩ := h
      simp
  | cons a as ih =>
      cases l with
      | nil => simp [matchLitCI] at h
      | cons c cs =>
          by_cases hc : ciEq a c = true
          · rw [matchLitCI, if_pos hc] at h
            cases hm : matchLitCI as cs with
            | none => rw [hm] at h; simp at h
            | some pr =>
                obtain ⟨m', r'⟩ := pr
                rw [hm] at h
                simp only [Option.some.injEq, Prod.mk.injEq] at h
                obtain ⟨rfl, rfl⟩ := h
                obtain ⟨ih1, ih2⟩ := ih hm
                exact ⟨by simp [ih1], by simp [hc, ih2]⟩
          · rw [matchLitCI, if_neg hc] at h; simp at h

theorem matchAlnum_spec {n : Nat} {l m r : List Char} (h : matchAlnum n l = some (m, r)) :
    m.length = n ∧ m.all isTokenChar = true := by
  induction n generalizing l m with
  | zero =>
      simp only [matchAlnum, Option.some.injEq, Prod.mk.injEq] at h
      obtain ⟨rfl, rfl⟩ := h
      simp
  | succ n ih =>
      cases l with
      | nil => simp [matchAlnum] at h
      | cons c cs =>
          by_cases hc : isTokenChar c = true
          · rw [matchAlnum, if_pos hc] at h
            cases hm : matchAlnum n cs with
            | none => rw [hm] at h; simp at h
            | some pr =>
                obtain ⟨m', r'⟩ := pr
                rw [hm] at h
                simp only [Option.some.injEq, Prod.mk.injEq] at h
                obtain ⟨rfl, rfl⟩ := h
                obtain ⟨ih1, ih2⟩ := ih hm
                exact ⟨by simp [ih1], by simp [hc, ih2]⟩
          · rw [matchAlnum, if_neg hc] at h; simp at h

theorem tokenAt_grammar {l t : List Char} (h : tokenAt l = some t) : tokenGrammar t = true := by
  cases l with
  | nil => simp [tokenAt] at h
  | cons c rest =>
      by_cases hc : c = '['
      · rw [tokenAt, if_pos hc] at h
        cases hml : matchLitCI tokenPrefixChars rest with
        | none => rw [hml] at h; simp at h
        | some pr1 =>
            obtain ⟨mpre, rest2⟩ := pr1
            rw [hml] at h
            dsimp only at h
            cases hma : matchAlnum 8 rest2 with
            | none => rw [hma] at h; simp at h
            | some pr2 =>
                obtain ⟨m8, rest3⟩ := pr2
                rw [hma] at h
                dsimp only at h
                cases rest3 with
                | nil => simp at h
                | cons d ds =>
                    dsimp only at h
                    by_cases hd : d = ']'
                    · rw [if_pos hd] at h
                      obtain rfl : mpre ++ m8 = t := by simpa using h
                      obtain ⟨hl1, hl2⟩ := matchLitCI_spec hml
                      obtain ⟨ha1, ha2⟩ := matchAlnum_spec hma
                      have h4 : mpre.length = 4 := by simpa using hl1
                      unfold tokenGrammar
                      refine (Bool.and_eq_true _ _).mpr
                        ⟨(Bool.and_eq_true _ _).mpr ⟨?_, ?_⟩, ?_⟩
                      · simp [h4, ha1]
                      · have := List.take_left mpre m8
                        rw [h4] at this
                        rw [this]
                        exact hl2
                      · have := List.drop_left mpre m8
                        rw [h4] at this
                        rw [this]
                        exact ha2
                    · rw [if_neg hd] at h; simp at h
      · rw [tokenAt, if_neg hc] at h; simp at h

theorem tokenSearch_some {l t : List Char} (h : tokenSearch l = some t) :
    tokenGrammar t = true ∧
    ∃ i, tokenAt (l.drop i) = some t ∧ ∀ j, j < i → tokenAt (l.drop j) = none := by
  induction l with
  | nil => simp [tokenSearch] at h
  | cons c cs ih =>
      rw [tokenSearch] at h
      cases ha : tokenAt (c :: cs) with
      | some u =>
          rw [ha] at h
          obtain rfl : u = t := by simpa using h
          exact ⟨tokenAt_grammar ha, 0, ha, fun j hj => absurd hj (Nat.not_lt_zero j)⟩
      | none =>
          rw [ha] at h
          obtain ⟨hg, i, hi, hlt⟩ := ih h
          refine ⟨hg, i + 1, by simpa using hi, ?_⟩
          intro j hj
          cases j with
          | zero => simpa using ha
          | succ j' =>
              have := hlt j' (by omega)
              simpa using this

/-- C3 (amended): token extraction searches the subject first, then the plain
body, and the HTML body only when both fail; the value extracted from a source
is the leftmost match of the bracketed pattern, it conforms to the
case-insensitive grammar, and its characters are returned exactly as they
stand in the source text, casing included; the subject from the spec example
yields its token and the bodies are then never consulted. -/
theorem extract_token_spec :
    (∀ subj body html t, tokenSearch subj = some t → extractToken subj body html = some t) ∧
    (∀ subj body body' html html' t, tokenSearch subj = some t →
        extractToken subj body html = extractToken subj body' html') ∧
    (∀ subj body html t, tokenSearch subj = none → tokenSearch body = some t →
        extractToken subj body html = some t) ∧
    (∀ subj body html, tokenSearch subj = none → tokenSearch body = none →
        extractToken subj body html = tokenSearch html) ∧
    (∀ l t, tokenSearch l = some t → tokenGrammar t = true ∧
        ∃ i, tokenAt (l.drop i) = some t ∧ ∀ j, j < i → tokenAt (l.drop j) = none) ∧
    (∀ body html, extractToken ("[ABA#12AB34CD] Re: Invitation".data) body html =
        some ("ABA#12AB34CD".data)) := by
  have h1 : ∀ subj body html t, tokenSearch subj = some t →
      extractToken subj body html = some t := by
    intro subj body html t h
    unfold extractToken
    rw [h]
  refine ⟨h1, ?_, ?_, ?_, fun l t h => tokenSearch_some h, ?_⟩
  · intro subj body body' html html' t h
    rw [h1 subj body html t h, h1 subj body' html' t h]
  · intro subj body html t hs hb
    unfold extractToken
    rw [hs, hb]
  · intro subj body html hs hb
    unfold extractToken
    rw [hs, hb]
  · intro body html
    exact h1 _ body html _ (by decide)

/-- Witness for C3 at concrete sources. -/
theorem extract_token_spec_witness :
    extractToken ("[ABA#12AB34CD] Re: Invitation".data) "".data "".data =
      some ("ABA#12AB34CD".data) ∧
    tokenGrammar ("ABA#12AB34CD".data) = true :=
  ⟨extract_token_spec.2.2.2.2.2 "".data "".data,
   (extract_token_spec.2.2.2.2.1 ("[ABA#12AB34CD] Re: Invitation".data) _ (by decide)).1⟩

/-- C3 counterexample: a subject whose eight-character suffix has lower-case
letters still matches, but extraction yields the lower-case variant verbatim,
not the canonical upper-case token the claim promises. -/
theorem extract_token_casing_counterexample :
    extractToken ("[ABA#12ab34cd] Re: Invitation".data) "".data "".data =
      some ("ABA#12ab34cd".data) ∧
    ("ABA#12ab34cd".data : List Char) ≠ "ABA#12AB34CD".data := by
  constructor <;> decide

/-- C9: a scanned item in which no token is found in any of the three text
sources leaves the log store and the disk completely unchanged and is reported
as unmatched; the scan simply moves on. -/
theorem process_item_no_token (now : String) (db : DB) (fs : List String) (it : MailItem)
    (hs : tokenSearch it.subject.data = none) (hb : tokenSearch it.body.data = none)
    (hh : tokenSearch it.html.data = none) :
    processItem now db fs it = (db, fs, false) := by
  unfold processItem extractToken
  rw [hs, hb, hh]

/-- Witness for C9 at a concrete tokenless item. -/
theorem process_item_no_token_witness :
    processItem "t0" DB.init [] demoItemNoToken = (DB.init, [], false) :=
  process_item_no_token "t0" DB.init [] demoItemNoToken (by decide) (by decide) (by decide)

/-! Proof support for the scan counters. -/

theorem pollFolder_counts (now : String) (st : DB × List String × PollCounters)
    (items : List MailItem) (h : st.2.2.scanned = st.2.2.matched) :
    (pollFolder now st items).2.2.scanned = (pollFolder now st items).2.2.matched := by
  unfold pollFolder
  generalize items.take POLL_MAX_SCAN = l
  induction l generalizing st with
  | nil => simpa using h
  | cons it rest ih =>
      rw [List.foldl_cons]
      apply ih
      by_cases hm : (processItem now st.1 st.2.1 it).2.2 = true
      · simp [hm, h]
      · simp [hm, h]

theorem pollInbox_counts (now : String) (folders : List (List MailItem)) (db : DB)
    (fs : List String) :
    (pollInbox now folders db fs).2.2.scanned = (pollInbox now folders db fs).2.2.matched := by
  unfold pollInbox
  have main : ∀ (fl : List (List MailItem)) (st : DB × List String × PollCounters),
      st.2.2.scanned = st.2.2.matched →
      (fl.foldl (pollFolder now) st).2.2.scanned = (fl.foldl (pollFolder now) st).2.2.matched := by
    intro fl
    induction fl with
    | nil => intro st h; simpa using h
    | cons f rest ih =>
        intro st h
        rw [List.foldl_cons]
        exact ih _ (pollFolder_counts now st f h)
  exact main folders (db, fs, ⟨0, 0⟩) rfl

/-- C1 (code-bug evidence): poll_inbox increments its scanned counter only in
the matched branch, so the returned counters always satisfy scanned = matched;
on a folder with one tokenless and one tokened item the call examines two
items yet returns scanned = 1, matched = 1. -/
theorem poll_inbox_counters :
    (∀ now folders db fs,
        (pollInbox now folders db fs).2.2.scanned = (pollInbox now folders db fs).2.2.matched) ∧
    examinedCount [[demoItemNoToken, demoItemWithToken]] = 2 ∧
    (pollInbox "t0" [[demoItemNoToken, demoItemWithToken]] DB.init []).2.2 = ⟨1, 1⟩ := by
  refine ⟨pollInbox_counts, ?_, ?_⟩
  · decide
  · decide

/-! Proof support for the collision-avoidance naming scheme. -/

theorem decDigitVal_decDigit {d : Nat} (h : d < 10) : decDigitVal (decDigit d) = d := by
  interval_cases d <;> decide

theorem decValRev_natDigitsRevGo {fuel n : Nat} (h : n ≤ fuel) :
    decValRev (natDigitsRevGo fuel n) = n := by
  induction fuel generalizing n with
  | zero =>
      have hn : n = 0 := Nat.le_zero.mp h
      subst hn
      decide
  | succ fuel ih =>
      cases n with
      | zero => simp [natDigitsRevGo, decValRev]
      | succ m =>
          rw [natDigitsRevGo, decValRev,
            decDigitVal_decDigit (Nat.mod_lt _ (by decide)),
            ih (by
              have h1 : (m + 1) / 10 < m + 1 := Nat.div_lt_self (Nat.succ_pos m) (by decide)
              omega)]
          exact Nat.mod_add_div (m + 1) 10

theorem natStr_injective : Function.Injective natStr := by
  intro a b hab
  have ha := decValRev_natDigitsRevGo (le_refl a)
  have hb := decValRev_natDigitsRevGo (le_refl b)
  have hg : natDigitsRevGo a a = natDigitsRevGo b b := by
    have := congrArg List.reverse hab
    simpa [natStr] using this
  rw [← ha, ← hb, hg]

theorem uniqueCand_zero_data (d s e : String) :
    (uniqueCand d s e 0).data = d.data ++ '/' :: (s.data ++ e.data) := by
  have hsep : ("/" : String).data = ['/'] := rfl
  simp [uniqueCand, pathJoin, String.data_append, hsep]

theorem uniqueCand_succ_data (d s e : String) (k : Nat) :
    (uniqueCand d s e (k + 1)).data =
      (d.data ++ '/' :: (s.data ++ ['('])) ++ (natStr (k + 1) ++ ')' :: e.data) := by
  have hsep : ("/" : String).data = ['/'] := rfl
  have hop : ("(" : String).data = ['('] := rfl
  have hcp : (")" : String).data = [')'] := rfl
  have hns : ((⟨natStr (k + 1)⟩ : String)).data = natStr (k + 1) := rfl
  simp [uniqueCand, pathJoin, String.data_append, hsep, hop, hcp, hns]

theorem uniqueCand_injective (d s e : String) : Function.Injective (uniqueCand d s e) := by
  intro i j hij
  have hd : (uniqueCand d s e i).data = (uniqueCand d s e j).data := by rw [hij]
  rcases i with _ | i
  · rcases j with _ | j
    · rfl
    · exfalso
      have hl := congrArg List.length hd
      rw [uniqueCand_zero_data, uniqueCand_succ_data] at hl
      simp [List.length_append] at hl
      omega
  · rcases j with _ | j
    · exfalso
      have hl := congrArg List.length hd
      rw [uniqueCand_succ_data, uniqueCand_zero_data] at hl
      simp [List.length_append] at hl
      omega
    · rw [uniqueCand_succ_data, uniqueCand_succ_data] at hd
      have h2 := List.append_cancel_left hd
      have h3 := List.append_cancel_right h2
      have := natStr_injective h3
      omega

theorem exists_uniqueCand_notMem (fs : List String) (d s e : String) :
    ∃ j, j ≤ fs.length ∧ uniqueCand d s e j ∉ fs := by
  by_contra hcon
  push_neg at hcon
  have hsub : ((List.range (fs.length + 1)).map (uniqueCand d s e)) ⊆ fs := by
    intro x hx
    rcases List.mem_map.mp hx with ⟨j, hj, rfl⟩
    exact hcon j (Nat.lt_succ_iff.mp (List.mem_range.mp hj))
  have hnd : ((List.range (fs.length + 1)).map (uniqueCand d s e)).Nodup :=
    List.Nodup.map (uniqueCand_injective d s e) (List.nodup_range _)
  have hle := (List.subperm_of_subset hnd hsub).length_le
  rw [List.length_map, List.length_range] at hle
  omega

theorem uniquePathGo_spec (fs : List String) (d s e : String) (fuel k : Nat)
    (hex : ∃ j, k ≤ j ∧ j ≤ k + fuel ∧ uniqueCand d s e j ∉ fs) :
    ∃ m, k ≤ m ∧ uniquePathGo fs d s e fuel k = uniqueCand d s e m ∧
      uniqueCand d s e m ∉ fs ∧ ∀ j, k ≤ j → j < m → uniqueCand d s e j ∈ fs := by
  induction fuel generalizing k with
  | zero =>
      obtain ⟨j, hj1, hj2, hj3⟩ := hex
      have hjk : j = k := by omega
      subst hjk
      exact ⟨j, le_refl j, rfl, hj3, fun i h1 h2 => by omega⟩
  | succ fuel ih =>
      by_cases hk : uniqueCand d s e k ∈ fs
      · obtain ⟨m, hm1, hm2, hm3, hm4⟩ := ih (k + 1) (by
          obtain ⟨j, hj1, hj2, hj3⟩ := hex
          have hne : j ≠ k := fun hh => hj3 (hh ▸ hk)
          exact ⟨j, by omega, by omega, hj3⟩)
        refine ⟨m, by omega, ?_, hm3, ?_⟩
        · rw [uniquePathGo, if_pos hk]
          exact hm2
        · intro j h1 h2
          rcases Nat.eq_or_lt_of_le h1 with h | h
          · rwa [h] at hk
          · exact hm4 j (by omega) h2
      · exact ⟨k, le_refl k, by rw [uniquePathGo, if_neg hk], hk, fun j h1 h2 => by omega⟩

theorem dropWhile_head_false {p : Char → Bool} {l : List Char} {x : Char} {xs : List Char}
    (h : l.dropWhile p = x :: xs) : p x = false := by
  induction l with
  | nil => simp at h
  | cons a as ih =>
      rw [List.dropWhile_cons] at h
      by_cases hp : p a = true
      · rw [if_pos hp] at h
        exact ih h
      · rw [if_neg hp] at h
        cases h
        simpa using hp

theorem splitExt_append (l : List Char) : (splitExt l).1 ++ (splitExt l).2 = l := by
  unfold splitExt
  dsimp only
  cases hsd : l.reverse.dropWhile notDot with
  | nil => simp
  | cons d revStem =>
      dsimp only
      by_cases hall : revStem.all isDot = true
      · rw [if_pos hall]
        simp
      · rw [if_neg hall]
        dsimp only
        have hd : d = '.' := by
          have := dropWhile_head_false hsd
          simpa [notDot] using this
        have hsplit := List.takeWhile_append_dropWhile notDot l.reverse
        rw [hsd] at hsplit
        conv_rhs => rw [← List.reverse_reverse l, ← hsplit]
        rw [hd]
        simp [List.reverse_append, List.append_assoc]

/-- Candidate path number k probed by _unique_path for a destination directory
and target base name: the stem and extension of the base name with the numeric
disambiguator of index k between them (index 0 is the plain name). -/
def baseCand (destDir baseName : String) (k : Nat) : String :=
  uniqueCand destDir (⟨(splitExt baseName.data).1⟩ : String) (⟨(splitExt baseName.data).2⟩ : String) k

theorem baseCand_zero (d b : String) : baseCand d b 0 = pathJoin d b := by
  show pathJoin d ((⟨(splitExt b.data).1⟩ : String) ++ (⟨(splitExt b.data).2⟩ : String)) =
    pathJoin d b
  congr 1
  apply String.ext
  rw [String.data_append]
  exact splitExt_append b.data

theorem uniquePath_core (fs : List String) (d b : String) :
    ∃ m, uniquePath fs d b = baseCand d b m ∧ baseCand d b m ∉ fs ∧
      ∀ j, j < m → baseCand d b j ∈ fs := by
  obtain ⟨j, hj1, hj2⟩ := exists_uniqueCand_notMem fs d
    (⟨(splitExt b.data).1⟩ : String) (⟨(splitExt b.data).2⟩ : String)
  obtain ⟨m, hm0, hm2, hm3, hm4⟩ := uniquePathGo_spec fs d
    (⟨(splitExt b.data).1⟩ : String) (⟨(splitExt b.data).2⟩ : String) (fs.length + 1) 0
    ⟨j, Nat.zero_le j, by omega, hj2⟩
  exact ⟨m, hm2, hm3, fun i h => hm4 i (Nat.zero_le i) h⟩

theorem uniquePath_notMem (fs : List String) (d b : String) : uniquePath fs d b ∉ fs := by
  obtain ⟨m, hm1, hm2, hm3⟩ := uniquePath_core fs d b
  rw [hm1]
  exact hm2

/-- C8: the collision-avoidance naming scheme returns the unmodified target
path when no file of that name exists, and otherwise the first candidate
carrying the disambiguator (1), (2), ... that does not exist; the returned
path never names an existing file, so nothing is overwritten, and saving two
attachments with identical target names in sequence yields distinct paths, the
second carrying the (1) suffix when the directory held neither name before. -/
theorem unique_path_spec (fs : List String) (destDir baseName : String) :
    uniquePath fs destDir baseName ∉ fs ∧
    (pathJoin destDir baseName ∉ fs →
        uniquePath fs destDir baseName = pathJoin destDir baseName) ∧
    (pathJoin destDir baseName ∈ fs →
        ∃ k, 1 ≤ k ∧ uniquePath fs destDir baseName = baseCand destDir baseName k ∧
          baseCand destDir baseName k ∉ fs ∧
          ∀ j, 1 ≤ j → j < k → baseCand destDir baseName j ∈ fs) ∧
    uniquePath (fs ++ [uniquePath fs destDir baseName]) destDir baseName ≠
      uniquePath fs destDir baseName ∧
    (pathJoin destDir baseName ∉ fs → baseCand destDir baseName 1 ∉ fs →
        uniquePath (fs ++ [pathJoin destDir baseName]) destDir baseName =
          baseCand destDir baseName 1) := by
  obtain ⟨m, hm1, hm2, hm3⟩ := uniquePath_core fs destDir baseName
  refine ⟨uniquePath_notMem fs destDir baseName, ?_, ?_, ?_, ?_⟩
  · intro h0
    rw [← baseCand_zero destDir baseName] at h0
    have hm0 : m = 0 := by
      by_contra hne
      exact h0 (hm3 0 (Nat.pos_of_ne_zero hne))
    rw [hm1, hm0, baseCand_zero]
  · intro h0
    rw [← baseCand_zero destDir baseName] at h0
    have hm0 : m ≠ 0 := fun hh => hm2 (hh ▸ h0)
    exact ⟨m, Nat.one_le_iff_ne_zero.mpr hm0, hm1, hm2, fun j h1 h2 => hm3 j h2⟩
  · intro hcontra
    have hnot := uniquePath_notMem (fs ++ [uniquePath fs destDir baseName]) destDir baseName
    rw [hcontra] at hnot
    exact hnot (List.mem_append_right fs (List.mem_singleton.mpr rfl))
  · intro h0 h1
    rw [← baseCand_zero destDir baseName] at h0
    obtain ⟨m', hm'1, hm'2, hm'3⟩ := uniquePath_core (fs ++ [baseCand destDir baseName 0])
      destDir baseName
    have hne0 : m' ≠ 0 := by
      intro hh
      rw [hh] at hm'2
      exact hm'2 (List.mem_append_right fs (List.mem_singleton.mpr rfl))
    have hle1 : m' ≤ 1 := by
      by_contra hgt
      have h1mem := hm'3 1 (by omega)
      rcases List.mem_append.mp h1mem with h | h
      · exact h1 h
      · have := List.mem_singleton.mp h
        have h10 : (1 : Nat) = 0 :=
          uniqueCand_injective destDir (⟨(splitExt baseName.data).1⟩ : String)
            (⟨(splitExt baseName.data).2⟩ : String) this
        omega
    have hm'eq : m' = 1 := by omega
    rw [baseCand_zero] at hm'1
    rw [hm'1, hm'eq]

/-- Witness for C8 at a concrete directory state. -/
theorem unique_path_spec_witness :
    uniquePath [] "attachments/T1" "a.pdf" = pathJoin "attachments/T1" "a.pdf" ∧
    uniquePath ([] ++ [pathJoin "attachments/T1" "a.pdf"]) "attachments/T1" "a.pdf" =
      baseCand "attachments/T1" "a.pdf" 1 :=
  ⟨(unique_path_spec [] "attachments/T1" "a.pdf").2.1 (by decide),
   (unique_path_spec [] "attachments/T1" "a.pdf").2.2.2.2 (by decide) (by decide)⟩

/-! Proof support for the destination-directory computation. -/

theorem collapseIllegalGo_no_illegal {fuel : Nat} {l : List Char} (h : l.length ≤ fuel) :
    ∀ c ∈ collapseIllegalGo fuel l, illegalChar c = false := by
  induction fuel generalizing l with
  | zero =>
      have hl : l = [] := List.eq_nil_of_length_eq_zero (Nat.le_zero.mp h)
      subst hl
      intro c hc
      simp [collapseIllegalGo] at hc
  | succ fuel ih =>
      cases l with
      | nil => intro c hc; simp [collapseIllegalGo] at hc
      | cons a as =>
          simp only [List.length_cons, Nat.succ_le_succ_iff] at h
          intro c hc
          by_cases ha : illegalChar a = true
          · rw [collapseIllegalGo, if_pos ha] at hc
            rcases List.mem_cons.mp hc with rfl | hc'
            · decide
            · exact ih (le_trans (List.dropWhile_sublist _).length_le h) c hc'
          · rw [collapseIllegalGo, if_neg ha] at hc
            rcases List.mem_cons.mp hc with rfl | hc'
            · simpa using ha
            · exact ih h c hc'

theorem mem_pyStrip {c : Char} {l : List Char} (h : c ∈ pyStrip l) : c ∈ l := by
  unfold pyStrip at h
  rw [List.mem_reverse] at h
  have h2 : c ∈ (l.dropWhile isPySpace).reverse := (List.dropWhile_sublist _).subset h
  rw [List.mem_reverse] at h2
  exact (List.dropWhile_sublist _).subset h2

theorem sanitizeFilename_spec (s : String) :
    sanitizeFilename s ≠ "" ∧ ∀ c ∈ (sanitizeFilename s).data, illegalChar c = false := by
  unfold sanitizeFilename
  dsimp only
  by_cases h : pyStrip (collapseIllegal s.data) = []
  · rw [if_pos h]
    exact ⟨by decide, by decide⟩
  · rw [if_neg h]
    constructor
    · intro hcon
      apply h
      have hdata : (⟨pyStrip (collapseIllegal s.data)⟩ : String).data = ("" : String).data := by
        rw [hcon]
      simpa using hdata
    · intro c hc
      have hc' : c ∈ pyStrip (collapseIllegal s.data) := hc
      exact collapseIllegalGo_no_illegal (le_refl _) c (mem_pyStrip hc')

/-- C10 (amended): the attachment destination directory is the base storage
directory joined with the sanitized topic; an empty topic falls back to the
fixed uncategorized bucket, while a nonempty topic that sanitizes to nothing,
a whitespace-only string for instance, falls back to the sanitizer's own
generic attachment bucket; the sanitized directory component is never empty
and carries no illegal path characters. -/
theorem dest_dir_spec (cid : String) :
    destDirFor cid =
      pathJoin ATTACH_BASE_DIR (sanitizeFilename (if cid = "" then "uncategorized" else cid)) ∧
    (cid = "" → destDirFor cid = pathJoin ATTACH_BASE_DIR "uncategorized") ∧
    (cid ≠ "" → pyStrip (collapseIllegal cid.data) = [] →
        destDirFor cid = pathJoin ATTACH_BASE_DIR "attachment") ∧
    sanitizeFilename (if cid = "" then "uncategorized" else cid) ≠ "" ∧
    (∀ c ∈ (sanitizeFilename (if cid = "" then "uncategorized" else cid)).data,
        illegalChar c = false) := by
  obtain ⟨hne, hnol⟩ := sanitizeFilename_spec (if cid = "" then "uncategorized" else cid)
  refine ⟨rfl, ?_, ?_, hne, hnol⟩
  · intro h
    subst h
    decide
  · intro hne2 hnil
    unfold destDirFor
    rw [if_neg hne2]
    unfold sanitizeFilename
    dsimp only
    rw [if_pos hnil]

/-- Witness for C10 at concrete topics. -/
theorem dest_dir_spec_witness :
    destDirFor "" = pathJoin ATTACH_BASE_DIR "uncategorized" ∧
    destDirFor "   " = pathJoin ATTACH_BASE_DIR "attachment" :=
  ⟨(dest_dir_spec "").2.1 rfl, (dest_dir_spec "   ").2.2.1 (by decide) (by decide)⟩

/-- C10 counterexample: a whitespace-only topic is nonempty, so it bypasses the
uncategorized substitution, and it sanitizes to nothing, so the capture
directory becomes the attachment bucket, not the uncategorized bucket the
claim names. -/
theorem dest_dir_whitespace_counterexample :
    destDirFor "   " = pathJoin ATTACH_BASE_DIR "attachment" ∧
    destDirFor "   " ≠ pathJoin ATTACH_BASE_DIR "uncategorized" := by
  constructor <;> decide

/-! Proof support for the attachment capture pipeline. -/

theorem saveOne_skip (ctx : SaveCtx) (idx : Nat) (att : Attachment) (db : DB) (fs : List String)
    (ha : att.accessFails = false)
    (hcase : oversized ctx.maxAttachSizeMB att = true ∨ att.saveFails = true) :
    saveOne ctx idx att db fs =
      (applyOp db (.insertAttach (attRecord ctx idx att "" "")), fs, 0) := by
  unfold saveOne
  rw [if_neg (by simp [ha])]
  rcases hcase with h | h
  · rw [if_pos h]
  · by_cases ho : oversized ctx.maxAttachSizeMB att = true
    · rw [if_pos ho]
    · rw [if_neg ho]
      dsimp only
      rw [if_pos h]

theorem saveOne_save (ctx : SaveCtx) (idx : Nat) (att : Attachment) (db : DB) (fs : List String)
    (ha : att.accessFails = false) (ho : oversized ctx.maxAttachSizeMB att = false)
    (hs : att.saveFails = false) :
    saveOne ctx idx att db fs =
      (applyOp db (.insertAttach (attRecord ctx idx att
          (uniquePath fs ctx.destDir (targetFname ctx idx att)) att.sha)),
       fs ++ [uniquePath fs ctx.destDir (targetFname ctx idx att)], 1) := by
  unfold saveOne
  rw [if_neg (by simp [ha]), if_neg (by simp [ho])]
  dsimp only
  rw [if_neg (by simp [hs])]

theorem saveAttachmentsGo_spec (ctx : SaveCtx) (atts : List Attachment) (idx : Nat)
    (db : DB) (fs : List String) (n : Nat)
    (hacc : ∀ a ∈ atts, a.accessFails = false) :
    (∃ newRecs,
        (saveAttachmentsGo ctx idx atts db fs n).1.attachment_log =
          db.attachment_log ++ newRecs ∧
        newRecs.length = atts.length ∧
        ∀ rec ∈ newRecs, (rec.saved_path = "" ∧ rec.sha256 = "") ∨
          (rec.saved_path ∈ (saveAttachmentsGo ctx idx atts db fs n).2.1 ∧
            rec.saved_path ∉ fs)) ∧
    (saveAttachmentsGo ctx idx atts db fs n).1.mail_log = db.mail_log ∧
    (saveAttachmentsGo ctx idx atts db fs n).1.reply_log = db.reply_log ∧
    (∃ newPaths, (saveAttachmentsGo ctx idx atts db fs n).2.1 = fs ++ newPaths ∧
        newPaths.length + n = (saveAttachmentsGo ctx idx atts db fs n).2.2) ∧
    (saveAttachmentsGo ctx idx atts db fs n).2.2 =
      n + (atts.filter (fun a => !oversized ctx.maxAttachSizeMB a && !a.saveFails)).length := by
  induction atts generalizing idx db fs n with
  | nil =>
      refine ⟨⟨[], by simp [saveAttachmentsGo], by simp, by simp⟩, rfl, rfl,
        ⟨[], by simp [saveAttachmentsGo], by simp [saveAttachmentsGo]⟩,
        by simp [saveAttachmentsGo]⟩
  | cons a rest ih =>
      have ha : a.accessFails = false := hacc a (List.mem_cons_self a rest)
      have hrest : ∀ x ∈ rest, x.accessFails = false :=
        fun x hx => hacc x (List.mem_cons_of_mem a hx)
      rw [saveAttachmentsGo]
      by_cases hskip : oversized ctx.maxAttachSizeMB a = true ∨ a.saveFails = true
      · rw [saveOne_skip ctx idx a db fs ha hskip]
        dsimp only
        obtain ⟨⟨newRecs, hlog, hlen, hmem⟩, hmail, hreply, ⟨newPaths, hfs, hnp⟩, hcount⟩ :=
          ih (idx + 1) (applyOp db (.insertAttach (attRecord ctx idx a "" ""))) fs (n + 0) hrest
        have hstep : (applyOp db (.insertAttach (attRecord ctx idx a "" ""))).attachment_log =
            db.attachment_log ++ [attRecord ctx idx a "" ""] := rfl
        refine ⟨⟨attRecord ctx idx a "" "" :: newRecs, ?_, by simp [hlen], ?_⟩,
          hmail, hreply, ⟨newPaths, hfs, by omega⟩, ?_⟩
        · rw [hlog, hstep, List.append_assoc]
          rfl
        · intro rec hrec
          rcases List.mem_cons.mp hrec with rfl | hrec'
          · exact Or.inl ⟨rfl, rfl⟩
          · exact hmem rec hrec'
        · have hfilter : (a :: rest).filter
              (fun x => !oversized ctx.maxAttachSizeMB x && !x.saveFails) =
              rest.filter (fun x => !oversized ctx.maxAttachSizeMB x && !x.saveFails) := by
            rw [List.filter_cons]
            have hfalse : (!oversized ctx.maxAttachSizeMB a && !a.saveFails) = false := by
              rcases hskip with h | h <;> simp [h]
            rw [hfalse]
            simp
          rw [hfilter]
          omega
      · push_neg at hskip
        obtain ⟨ho0, hs0⟩ := hskip
        have ho : oversized ctx.maxAttachSizeMB a = false := Bool.eq_false_iff.mpr ho0
        have hs : a.saveFails = false := Bool.eq_false_iff.mpr hs0
        rw [saveOne_save ctx idx a db fs ha ho hs]
        dsimp only
        obtain ⟨⟨newRecs, hlog, hlen, hmem⟩, hmail, hreply, ⟨newPaths, hfs, hnp⟩, hcount⟩ :=
          ih (idx + 1)
            (applyOp db (.insertAttach (attRecord ctx idx a
              (uniquePath fs ctx.destDir (targetFname ctx idx a)) a.sha)))
            (fs ++ [uniquePath fs ctx.destDir (targetFname ctx idx a)]) (n + 1) hrest
        have hstep : (applyOp db (.insertAttach (attRecord ctx idx a
            (uniquePath fs ctx.destDir (targetFname ctx idx a)) a.sha))).attachment_log =
            db.attachment_log ++ [attRecord ctx idx a
              (uniquePath fs ctx.destDir (targetFname ctx idx a)) a.sha] := rfl
        refine ⟨⟨attRecord ctx idx a (uniquePath fs ctx.destDir (targetFname ctx idx a)) a.sha
            :: newRecs, ?_, by simp [hlen], ?_⟩, hmail, hreply, ?_, ?_⟩
        · rw [hlog, hstep, List.append_assoc]
          rfl
        · intro rec hrec
          rcases List.mem_cons.mp hrec with rfl | hrec'
          · refine Or.inr ⟨?_, ?_⟩
            · rw [hfs]
              exact List.mem_append_left _ (List.mem_append_right _ (List.mem_singleton.mpr rfl))
            · exact uniquePath_notMem fs ctx.destDir (targetFname ctx idx a)
          · rcases hmem rec hrec' with h | ⟨h1, h2⟩
            · exact Or.inl h
            · exact Or.inr ⟨h1, fun hcon => h2 (List.mem_append_left _ hcon)⟩
        · refine ⟨uniquePath fs ctx.destDir (targetFname ctx idx a) :: newPaths, ?_, ?_⟩
          · rw [hfs, List.append_assoc]
            rfl
          · simp only [List.length_cons]
            omega
        · have hfilter : (a :: rest).filter
              (fun x => !oversized ctx.maxAttachSizeMB x && !x.saveFails) =
              a :: rest.filter (fun x => !oversized ctx.maxAttachSizeMB x && !x.saveFails) := by
            rw [List.filter_cons]
            have htrue : (!oversized ctx.maxAttachSizeMB a && !a.saveFails) = true := by
              simp [ho, hs]
            rw [htrue]
            simp
          rw [hfilter]
          simp only [List.length_cons]
          omega

/-- C7: the capture pipeline appends exactly one attachment record per
encountered attachment; an attachment above the size ceiling (a ceiling of
zero disabling the check) or whose save call fails writes no file to disk and
is recorded with empty path and hash and excluded from the returned count; a
successful save records the freshly written collision-free path and the
computed file hash; the returned count equals exactly the number of files
written to disk. -/
theorem save_attachments_spec (maxMB : Nat)
    (company token collection_id msg_entryid received_on now : String)
    (atts : List Attachment) (db : DB) (fs : List String)
    (hacc : ∀ a ∈ atts, a.accessFails = false) :
    (∃ newRecs,
        (saveAttachments maxMB company token collection_id atts msg_entryid received_on now
            db fs).1.attachment_log = db.attachment_log ++ newRecs ∧
        newRecs.length = atts.length ∧
        ∀ rec ∈ newRecs, (rec.saved_path = "" ∧ rec.sha256 = "") ∨
          (rec.saved_path ∈ (saveAttachments maxMB company token collection_id atts msg_entryid
              received_on now db fs).2.1 ∧ rec.saved_path ∉ fs)) ∧
    (∃ newPaths, (saveAttachments maxMB company token collection_id atts msg_entryid received_on
        now db fs).2.1 = fs ++ newPaths ∧
      newPaths.length = (saveAttachments maxMB company token collection_id atts msg_entryid
        received_on now db fs).2.2) ∧
    (saveAttachments maxMB company token collection_id atts msg_entryid received_on now
        db fs).2.2 =
      (atts.filter (fun a => !oversized maxMB a && !a.saveFails)).length ∧
    (∀ idx a db0 fs0, a.accessFails = false →
      ((oversized maxMB a = true ∨ a.saveFails = true) →
        saveOne (mkSaveCtx maxMB company token collection_id msg_entryid received_on now)
            idx a db0 fs0 =
          (applyOp db0 (.insertAttach (attRecord
              (mkSaveCtx maxMB company token collection_id msg_entryid received_on now)
              idx a "" "")), fs0, 0)) ∧
      (oversized maxMB a = false → a.saveFails = false →
        saveOne (mkSaveCtx maxMB company token collection_id msg_entryid received_on now)
            idx a db0 fs0 =
          (applyOp db0 (.insertAttach (attRecord
              (mkSaveCtx maxMB company token collection_id msg_entryid received_on now)
              idx a
              (uniquePath fs0
                (mkSaveCtx maxMB company token collection_id msg_entryid received_on now).destDir
                (targetFname
                  (mkSaveCtx maxMB company token collection_id msg_entryid received_on now)
                  idx a))
              a.sha)),
           fs0 ++ [uniquePath fs0
              (mkSaveCtx maxMB company token collection_id msg_entryid received_on now).destDir
              (targetFname
                (mkSaveCtx maxMB company token collection_id msg_entryid received_on now)
                idx a)], 1))) := by
  have hcases : ∀ idx a db0 fs0, a.accessFails = false →
      ((oversized maxMB a = true ∨ a.saveFails = true) →
        saveOne (mkSaveCtx maxMB company token collection_id msg_entryid received_on now)
            idx a db0 fs0 =
          (applyOp db0 (.insertAttach (attRecord
              (mkSaveCtx maxMB company token collection_id msg_entryid received_on now)
              idx a "" "")), fs0, 0)) ∧
      (oversized maxMB a = false → a.saveFails = false →
        saveOne (mkSaveCtx maxMB company token collection_id msg_entryid received_on now)
            idx a db0 fs0 =
          (applyOp db0 (.insertAttach (attRecord
              (mkSaveCtx maxMB company token collection_id msg_entryid received_on now)
              idx a
              (uniquePath fs0
                (mkSaveCtx maxMB company token collection_id msg_entryid received_on now).destDir
                (targetFname
                  (mkSaveCtx maxMB company token collection_id msg_entryid received_on now)
                  idx a))
              a.sha)),
           fs0 ++ [uniquePath fs0
              (mkSaveCtx maxMB company token collection_id msg_entryid received_on now).destDir
              (targetFname
                (mkSaveCtx maxMB company token collection_id msg_entryid received_on now)
                idx a)], 1)) := by
    intro idx a db0 fs0 ha
    exact ⟨fun hsk => saveOne_skip _ idx a db0 fs0 ha hsk,
      fun ho hs => saveOne_save _ idx a db0 fs0 ha ho hs⟩
  by_cases hnil : atts = []
  · subst hnil
    refine ⟨⟨[], by simp [saveAttachments], by simp, by simp⟩,
      ⟨[], by simp [saveAttachments], by simp [saveAttachments]⟩,
      by simp [saveAttachments], hcases⟩
  · have heq : saveAttachments maxMB company token collection_id atts msg_entryid received_on
        now db fs =
        saveAttachmentsGo (mkSaveCtx maxMB company token collection_id msg_entryid received_on
          now) 1 atts db fs 0 := by
      unfold saveAttachments
      rw [if_neg hnil]
    obtain ⟨⟨newRecs, hlog, hlen, hmem⟩, _, _, ⟨newPaths, hfs, hnp⟩, hcount⟩ :=
      saveAttachmentsGo_spec
        (mkSaveCtx maxMB company token collection_id msg_entryid received_on now)
        atts 1 db fs 0 hacc
    rw [heq]
    refine ⟨⟨newRecs, hlog, hlen, hmem⟩, ⟨newPaths, hfs, ?_⟩, ?_, hcases⟩
    · simpa using hnp
    · simpa using hcount

/-- Witness for C7 at a concrete attachment list with a one-megabyte ceiling:
the oversized attachment is logged unsaved, the small one is written. -/
theorem save_attachments_spec_witness :
    (saveAttachments 1 "Acme" "ABA#12AB34CD" "T1" [demoAttBig, demoAttGood] "e" "r" "t"
        DB.init []).2.2 =
      ([demoAttBig, demoAttGood].filter (fun a => !oversized 1 a && !a.saveFails)).length :=
  (save_attachments_spec 1 "Acme" "ABA#12AB34CD" "T1" "e" "r" "t" [demoAttBig, demoAttGood]
    DB.init [] (by decide)).2.2.1

/-! Proof support for the bulk sender. -/

theorem bulkSendGo_ok (rows : List ContactRow) (db : DB) (acc : List SendResult)
    (h : ∀ x ∈ rows, x.sendRaises = false) :
    ∃ res db2, bulkSendGo rows db acc = .ok res db2 ∧
      res.length = acc.length + (rows.filter (fun x => safeStr x.email ≠ "")).length := by
  induction rows generalizing db acc with
  | nil => exact ⟨acc.reverse, db, rfl, by simp⟩
  | cons r rest ih =>
      have hr : r.sendRaises = false := h r (List.mem_cons_self r rest)
      have hrest : ∀ x ∈ rest, x.sendRaises = false :=
        fun x hx => h x (List.mem_cons_of_mem r hx)
      by_cases he : safeStr r.email = ""
      · rw [bulkSendGo, if_pos he]
        obtain ⟨res, db2, heq, hlen⟩ := ih db acc hrest
        refine ⟨res, db2, heq, ?_⟩
        rw [hlen, List.filter_cons]
        simp [he]
      · rw [bulkSendGo, if_neg he]
        rw [if_neg (by simp [hr])]
        obtain ⟨res, db2, heq, hlen⟩ := ih _ _ hrest
        refine ⟨res, db2, heq, ?_⟩
        rw [hlen, List.filter_cons]
        have hcond : (decide (safeStr r.email ≠ "")) = true := by simp [he]
        rw [hcond]
        simp only [List.length_cons, if_true]
        omega

theorem bulkSendGo_raised (pre : List ContactRow) (r : ContactRow) (db : DB)
    (hpre : ∀ x ∈ pre, x.sendRaises = false)
    (hr : r.sendRaises = true) (he : safeStr r.email ≠ "") :
    ∃ db2, ∀ post acc, bulkSendGo (pre ++ r :: post) db acc = .raised db2 := by
  induction pre generalizing db with
  | nil =>
      refine ⟨db, fun post acc => ?_⟩
      rw [List.nil_append, bulkSendGo, if_neg he]
      rw [if_pos hr]
  | cons p pre ih =>
      have hp : p.sendRaises = false := hpre p (List.mem_cons_self p pre)
      have hpre' : ∀ x ∈ pre, x.sendRaises = false :=
        fun x hx => hpre x (List.mem_cons_of_mem p hx)
      by_cases hpe : safeStr p.email = ""
      · obtain ⟨db2, hall⟩ := ih db hpre'
        refine ⟨db2, fun post acc => ?_⟩
        rw [List.cons_append, bulkSendGo, if_pos hpe]
        exact hall post acc
      · obtain ⟨db2, hall⟩ := ih ((sendOne p.env (safeStr p.email)
          (if safeStr p.company = "" then "Valued Supplier" else safeStr p.company)
          (safeStr p.collection_id) (safeStr p.product_desc) db).2.2) hpre'
        refine ⟨db2, fun post acc => ?_⟩
        rw [List.cons_append, bulkSendGo, if_neg hpe]
        rw [if_neg (by simp [hp])]
        exact hall post _

/-- C2 (amended): bulk_send processes rows in sheet order and skips rows with a
blank address, but an exception in one recipient's render/send step
propagates: the recipients after the failing one are never attempted (the
outcome does not depend on them) and no result list is returned at all; only
when no send raises does the call run to completion and return one entry per
recipient with a nonempty address. -/
theorem bulk_send_spec (pre post post' : List ContactRow) (r : ContactRow) (db : DB)
    (hpre : ∀ x ∈ pre, x.sendRaises = false)
    (hr : r.sendRaises = true) (he : safeStr r.email ≠ "") :
    (∃ db2, bulkSend (pre ++ r :: post) db = .raised db2) ∧
    bulkSend (pre ++ r :: post) db = bulkSend (pre ++ r :: post') db ∧
    (∀ rows db0, (∀ x ∈ rows, x.sendRaises = false) →
        ∃ res db2, bulkSend rows db0 = .ok res db2 ∧
          res.length = (rows.filter (fun x => safeStr x.email ≠ "")).length) := by
  obtain ⟨db2, hall⟩ := bulkSendGo_raised pre r db hpre hr he
  refine ⟨⟨db2, hall post []⟩, ?_, ?_⟩
  · rw [bulkSend, bulkSend, hall post [], hall post' []]
  · intro rows db0 h
    obtain ⟨res, db2', heq, hlen⟩ := bulkSendGo_ok rows db0 [] h
    exact ⟨res, db2', heq, by simpa using hlen⟩

/-- Witness for C2 at a concrete one-row batch whose send raises. -/
theorem bulk_send_spec_witness :
    ∃ db2, bulkSend ([] ++ demoRowMk "a3@x.com" "cccccccccccccccccccccccccccccccc" true :: [])
      DB.init = .raised db2 :=
  (bulk_send_spec [] [] [] (demoRowMk "a3@x.com" "cccccccccccccccccccccccccccccccc" true)
    DB.init (by simp) (by decide) (by decide)).1

/-- C2 counterexample: over five recipients with the third raising, bulk_send
returns no result list at all and only the two recipients before the failure
have been sent and logged, so the batch is not processed to completion. -/
theorem bulk_send_abort_counterexample :
    (bulkSend demoRows5 DB.init).isOk = false ∧
    (bulkSend demoRows5 DB.init).dbOf.mail_log.length = 2 := by
  constructor <;> decide

end AutoBid

